import Mathlib

/-!
Verification development for the section-aware document segmentation and
chunking engine of `app/core/etl/multimodal/ingest.py`.

The Python functions are shallowly embedded as executable Lean definitions:
strings become `String` (operated on through their `List Char` data),
the duck-typed element objects become a closed `DocElem` record, the
external vision collaborator becomes a per-element outcome field, and the
two passes plus the per-section chunk assembler become structural
recursions over element lists.
-/

set_option autoImplicit false
set_option maxRecDepth 8192

/-! ## Character and string utilities -/

/-- Model of the character class `\s` (and of Python `str.strip` blanks)
for the ASCII whitespace actually present in this corpus. -/
def isWsC (c : Char) : Bool := c = ' ' || c = '\t' || c = '\n' || c = '\r'

/-- Model of the regex class `\d`. -/
def isDigitC (c : Char) : Bool := '0' ≤ c && c ≤ '9'

/-- The separator class `[.)\s]` of `HEADING_RE`. -/
def isSepC (c : Char) : Bool := c = '.' || c = ')' || isWsC c

/-- Drop trailing whitespace characters. -/
def trimEnd : List Char → List Char
  | [] => []
  | c :: rest =>
    match trimEnd rest with
    | [] => if isWsC c then [] else [c]
    | r => c :: r

/-- Model of Python `str.strip()` on the character list. -/
def trimL (l : List Char) : List Char := trimEnd (l.dropWhile isWsC)

/-- Model of Python `str.strip()`. -/
def trimS (s : String) : String := String.mk (trimL s.data)

/-- Replace every maximal whitespace run by the single character `rep`;
the flag records whether the previous character was whitespace.  With
`rep = ' '` this is `re.sub(r"\s+", " ", ·)`, with `rep = '_'` it is the
substitution used by `_norm`. -/
def wsRunsTo (rep : Char) : Bool → List Char → List Char
  | _, [] => []
  | prev, c :: rest =>
    if isWsC c then
      if prev then wsRunsTo rep true rest else rep :: wsRunsTo rep true rest
    else c :: wsRunsTo rep false rest

/-- Does `l` start with `p`? -/
def startsWithL : List Char → List Char → Bool
  | _, [] => true
  | [], _ :: _ => false
  | c :: cs, p :: ps => c = p && startsWithL cs ps

/-- Substring containment on character lists (Python `pat in hay`). -/
def containsL : List Char → List Char → Bool
  | [], pat => pat.isEmpty
  | c :: rest, pat => startsWithL (c :: rest) pat || containsL rest pat

/-- Substring containment on strings (Python `pat in hay`). -/
def containsS (hay pat : String) : Bool := containsL hay.data pat.data

/-- Python `hay.startswith(pat)`. -/
def startsWithS (hay pat : String) : Bool := startsWithL hay.data pat.data

/-- Model of Python `str.lower()` for the ASCII and Spanish accented
characters used by this corpus. -/
def toLowerCh (c : Char) : Char :=
  if c = 'Á' then 'á' else if c = 'É' then 'é' else if c = 'Í' then 'í'
  else if c = 'Ó' then 'ó' else if c = 'Ú' then 'ú' else if c = 'Ü' then 'ü'
  else if c = 'Ñ' then 'ñ' else c.toLower

/-- Model of Python `str.lower()`. -/
def lowerStr (s : String) : String := String.mk (s.data.map toLowerCh)

/-- Model of `_strip_accents` (NFKD normalization followed by removal of
combining marks) as a character table covering the Latin accented
characters this pipeline encounters. -/
def stripAccentChar (c : Char) : Char :=
  if c = 'á' then 'a' else if c = 'é' then 'e' else if c = 'í' then 'i'
  else if c = 'ó' then 'o' else if c = 'ú' then 'u' else if c = 'ü' then 'u'
  else if c = 'ñ' then 'n'
  else if c = 'Á' then 'A' else if c = 'É' then 'E' else if c = 'Í' then 'I'
  else if c = 'Ó' then 'O' else if c = 'Ú' then 'U' else if c = 'Ü' then 'U'
  else if c = 'Ñ' then 'N' else c

/-- Model of `_strip_accents`. -/
def stripAccents (s : String) : String := String.mk (s.data.map stripAccentChar)

/-- Split into maximal non-whitespace words (Python `str.split()`);
the accumulator holds the current word reversed. -/
def splitWsGo : List Char → List Char → List (List Char)
  | acc, [] => if acc.isEmpty then [] else [acc.reverse]
  | acc, c :: rest =>
    if isWsC c then
      if acc.isEmpty then splitWsGo [] rest else acc.reverse :: splitWsGo [] rest
    else splitWsGo (c :: acc) rest

/-- Python `str.split()`. -/
def splitWs (s : String) : List String := (splitWsGo [] s.data).map String.mk

/-- Python `sep.join(parts)`. -/
def joinSep (sep : String) : List String → String
  | [] => ""
  | [x] => x
  | x :: y :: rest => x ++ sep ++ joinSep sep (y :: rest)

/-- Count of non-overlapping occurrences of `pat` in the text, scanning
left to right (Python `str.count` for a non-empty pattern). -/
def countOccsL (pat : List Char) : List Char → Nat
  | [] => 0
  | c :: rest =>
    if !pat.isEmpty && startsWithL (c :: rest) pat then
      countOccsL pat (rest.drop (pat.length - 1)) + 1
    else
      countOccsL pat rest
termination_by l => l.length
decreasing_by
  · simp only [List.length_cons, List.length_drop]
    omega
  · simp

/-- Python `hay.count(pat)` for the non-empty literal patterns used in
`_mk_meta`. -/
def countOccsS (hay pat : String) : Nat := countOccsL pat.data hay.data

/-! ## Module constants of `ingest.py` -/

/-- `SKIP_TOKENS`. -/
def SKIP_TOKENS : List String :=
  ["confidencial", "cb consultores chile.", "grupo epm", "grupo saesa"]

/-- `SECTION_KEYWORDS`, in dictionary insertion order. -/
def SECTION_KEYWORDS : List (String × List String) :=
  [("1", ["control de la plantilla", "control de versiones", "historial de cambios"]),
   ("2", ["descripción y evidencia", "evidencia hallazgo", "descripción hallazgo"]),
   ("3", ["respuesta consultoría", "respuesta consultoria", "solución"])]

/-! ## Noise Filter (`_is_footer_or_disclaimer`) -/

/-- `_is_footer_or_disclaimer`: an element is noise when its
whitespace-collapsed, lowered text is empty, starts with a page marker,
or contains a boilerplate token. -/
def isFooterOrDisclaimer (text : String) : Bool :=
  let s := joinSep " " (splitWs (lowerStr text))
  s = "" || startsWithS s "página " || startsWithS s "pagina "
    || SKIP_TOKENS.any (fun tok => containsS s tok)

/-! ## Content-Section Inferencer (`_infer_section_from_content`) -/

/-- Word count used by the strict (marker) mode: `len(text.split())`,
the further `if w.strip()` filter of the source being a no-op on words
produced by `split()`. -/
def wordCountS (text : String) : Nat := (splitWs text).length

/-- The `matches` list of `_infer_section_from_content`: the sections
whose keyword list hits the accent-stripped, lowered text, in dictionary
order. -/
def sectionHits (text : String) : List String :=
  let textLower := stripAccents (lowerStr text)
  (SECTION_KEYWORDS.filter
      (fun sk => sk.2.any (fun kw => containsS textLower kw))).map (fun sk => sk.1)

/-- `_infer_section_from_content`: keyword classification over the
accent-stripped, lowered text; in marker mode the match must be unique
and the original text shorter than ten words. -/
def inferSection (text : String) (isMarkerCheck : Bool) : Option String :=
  match sectionHits text with
  | [] => none
  | m :: _ =>
    if isMarkerCheck then
      if wordCountS text < 10 && (sectionHits text).length = 1 then some m
      else none
    else some m

/-! ## Heading Detector (`HEADING_RE` and `_detect_heading`)

The regex `^\s*(\d+(?:\.\d+)*)[.)\s]+(.+?)(?:\s+\d+)?\s*$` is embedded as a
recursive-descent matcher that follows the backtracking order of the regex
engine.  The greedy `\d+` and `\s+` pieces never need backtracking: any
shortened match leaves a digit (resp. a whitespace character) in a position
where the continuation requires a different character class.  The starred
group is tried with the maximal number of repetitions first, the separator
class with the longest run first, and the lazy title with the shortest
prefix first. -/

/-- Does the suffix after the lazily matched title complete the pattern,
i.e. match `(?:\s+\d+)?\s*$`? -/
def suffixOK (u : List Char) : Bool :=
  u.all isWsC ||
    (let w := u.takeWhile isWsC
     !w.isEmpty &&
       (let v := u.drop w.length
        let d := v.takeWhile isDigitC
        !d.isEmpty && (v.drop d.length).all isWsC))

/-- Lazy matching of `(.+?)` followed by `(?:\s+\d+)?\s*$`: returns the
shortest non-empty title prefix whose remainder completes the pattern.
`.` does not match a newline. -/
def titleSplit : List Char → Option (List Char)
  | [] => none
  | c :: rest =>
    if c = '\n' then none
    else if suffixOK rest then some [c]
    else
      match titleSplit rest with
      | some t => some (c :: t)
      | none => none

/-- Try separator runs `[.)\s]+` of length `k, k-1, …, 1` (the regex
explores the greedy class longest first). -/
def trySepLens (pathAcc rest : List Char) : Nat → Option (List Char × List Char)
  | 0 => none
  | k + 1 =>
    match titleSplit (rest.drop (k + 1)) with
    | some t => some (pathAcc, t)
    | none => trySepLens pathAcc rest k

/-- Match `[.)\s]+(.+?)(?:\s+\d+)?\s*$` at `rest`, the captured path
being `pathAcc`. -/
def trySep (pathAcc rest : List Char) : Option (List Char × List Char) :=
  trySepLens pathAcc rest (rest.takeWhile isSepC).length

/-- Backtracking point for `(?:\.\d+)*`: first try to extend the path by
one more `\.\d+` group, and on failure match the separator and title
here.  The first argument is recursion fuel; each extension consumes at
least two characters of the remaining input, so fuel equal to the length
of the remaining input never runs out. -/
def tryFromF : Nat → List Char → List Char → Option (List Char × List Char)
  | 0, pathAcc, rest => trySep pathAcc rest
  | fuel + 1, pathAcc, rest =>
    match rest with
    | '.' :: r2 =>
      let ds := r2.takeWhile isDigitC
      if ds.isEmpty then trySep pathAcc rest
      else
        match tryFromF fuel (pathAcc ++ '.' :: ds) (r2.drop ds.length) with
        | some res => some res
        | none => trySep pathAcc rest
    | _ => trySep pathAcc rest

/-- Backtracking point for `(?:\.\d+)*`, fuel instantiated. -/
def tryFrom (pathAcc rest : List Char) : Option (List Char × List Char) :=
  tryFromF rest.length pathAcc rest

/-- Match the full `HEADING_RE` against an already cleaned line. -/
def matchHeading (clean : List Char) : Option (List Char × List Char) :=
  let afterWs := clean.dropWhile isWsC
  let ds := afterWs.takeWhile isDigitC
  if ds.isEmpty then none
  else tryFrom ds (afterWs.drop ds.length)

/-- `_detect_heading`: collapse whitespace, match `HEADING_RE`, return
the dotted path and the stripped title. -/
def detectHeading (line : String) : Option (String × String) :=
  match matchHeading (wsRunsTo ' ' false (trimL line.data)) with
  | some (p, t) => some (String.mk p, String.mk (trimL t))
  | none => none

/-- `_get_section_parent`: first dotted component, with the degenerate
cases passed through. -/
def getSectionParent (path : String) : String :=
  if path = "" || path = "title" then path
  else String.mk (path.data.takeWhile (fun c => c ≠ '.'))

/-- Models the sha256 hex digest of `_content_sha` as a deterministic
injective function of the content (the digest itself is produced by an
external library). -/
def contentSha (text : String) : String := text

/-- `_norm`: strip accents, strip and lower, replace whitespace runs by
underscores, and keep only `[a-z0-9_\-.]`. -/
def isNormKeep (c : Char) : Bool :=
  ('a' ≤ c && c ≤ 'z') || ('0' ≤ c && c ≤ '9') || c = '_' || c = '-' || c = '.'

/-- `_norm`. -/
def normStr (s : String) : String :=
  let s2 := stripAccents s
  let s3 := lowerStr (trimS s2)
  String.mk ((wsRunsTo '_' false s3.data).filter isNormKeep)

-- sanity checks of the classifier layer
example : detectHeading "2.  Descripción y Evidencia   12" =
    some ("2", "Descripción y Evidencia") := by decide
example : detectHeading "1.2.3" = some ("1.2", "3") := by decide
example : detectHeading "hola mundo" = none := by decide
example : inferSection "evidencia hallazgo numero uno" false = some "2" := by decide
example : inferSection "Evidencia Hallazgo" true = some "2" := by decide
example : inferSection "Evidencia   Hallazgo" true = none := by decide
example : inferSection "descripción y evidencia" false = none := by decide
example : isFooterOrDisclaimer "  PÁGINA 4" = true := by decide
example : isFooterOrDisclaimer "texto normal" = false := by decide
example : getSectionParent "2.1" = "2" := by decide

/-! ## Data model

Elements are the duck-typed objects produced by the external partitioner;
their runtime type name is modelled by a closed `EKind` discriminant
(`"Image" in et`, `"Table" in et`, `et in ["Header","Footer","PageBreak"]`
partition the checks made by the source).  `txt` is `str(el)`, `tableMd`
the rendering produced by the external table-to-markdown converter for a
Table element, `page` the `metadata.page_number`, and `vision` the outcome
of the external vision collaborator for an Image element. -/

inductive EKind
  | text | table | image | header | footer | pageBreak
deriving DecidableEq

/-- Outcome of `_materialize_image` plus the vision provider for one
image element: the bytes may be unavailable, the provider may raise, or
it may reply with a success flag and a response text. -/
inductive VisionOutcome
  | noBytes
  | raisesExc
  | replied (success : Bool) (response : String)
deriving DecidableEq

/-- One extracted document element. -/
structure DocElem where
  kind : EKind
  txt : String
  tableMd : String := ""
  page : Option Nat := none
  vision : VisionOutcome := .replied true ""
deriving DecidableEq

/-- Is the runtime type one of Header/Footer/PageBreak? -/
def kindIsHFP : EKind → Bool
  | .header => true
  | .footer => true
  | .pageBreak => true
  | _ => false

/-- `_element_to_markdown`: tables go through the external converter
(whose stripped output is the `tableMd` field), anything else is
`str(el).strip()`. -/
def elementToMarkdown (el : DocElem) : String :=
  match el.kind with
  | .table => trimS el.tableMd
  | _ => trimS el.txt

/-- `_describe_images_async`: sequential loop over the image buffer; an
image without materializable bytes is skipped, a raising provider call
yields the error placeholder, and an unsuccessful or empty reply yields
the unavailable placeholder. -/
def describeImages : List DocElem → List String
  | [] => []
  | el :: rest =>
    match el.vision with
    | .noBytes => describeImages rest
    | .raisesExc => "[IMAGEN] Error de procesamiento" :: describeImages rest
    | .replied ok resp =>
      let t := if ok then trimS resp else ""
      ("[IMAGEN] " ++ (if t = "" then "Descripción no disponible." else t))
        :: describeImages rest

/-! ## Pass 1: Section Registry / TOC builder -/

/-- Lookup in the insertion-ordered dict modelling `section_titles`. -/
def assocLookup : List (String × String) → String → Option String
  | [], _ => none
  | (k, v) :: rest, key => if k = key then some v else assocLookup rest key

/-- `d[key] = v` on the insertion-ordered dict. -/
def assocSet : List (String × String) → String → String → List (String × String)
  | [], k, v => [(k, v)]
  | (k0, v0) :: rest, k, v =>
    if k0 = k then (k0, v) :: rest else (k0, v0) :: assocSet rest k v

/-- One step of the first pass, at element index `n`: skip noise,
detect a heading, and register its title under the condition
`parent not in section_titles or path == parent`; every detected heading
index is recorded as a TOC marker. -/
def pass1Go : Nat → List DocElem → List (String × String) → List Nat →
    List (String × String) × List Nat
  | _, [], ts, toc => (ts, toc)
  | n, e :: rest, ts, toc =>
    let txt := trimS e.txt
    if kindIsHFP e.kind || isFooterOrDisclaimer txt then
      pass1Go (n + 1) rest ts toc
    else
      match detectHeading txt with
      | some (p, t) =>
        if p ≠ "" && t ≠ "" then
          let parent := getSectionParent p
          let ts1 := if (assocLookup ts parent).isNone || p = parent
                     then assocSet ts parent t else ts
          pass1Go (n + 1) rest ts1 (toc ++ [n])
        else pass1Go (n + 1) rest ts toc
      | none => pass1Go (n + 1) rest ts toc

/-- Pass 1 over all elements: the Section Registry (path → title, in
insertion order) and the TOC marker indices. -/
def pass1 (els : List DocElem) : List (String × String) × List Nat :=
  pass1Go 0 els [] []

/-! ## Pass 2: Section Assignment Engine -/

/-- One section bucket: path, title, assigned elements in order, and the
set of touched pages (modelled as a duplicate-free list). -/
structure Sec where
  path : String
  title : String
  els : List DocElem
  pages : List Nat
deriving DecidableEq

/-- Membership in the modelled page set. -/
def addPage (ps : List Nat) (p : Nat) : List Nat :=
  if ps.contains p then ps else ps ++ [p]

/-- Is `p` a key of the sections dict? -/
def secsHas (secs : List Sec) (p : String) : Bool :=
  secs.any (fun s => s.path = p)

/-- Append `el` to the bucket of section `p` and record its page when the
page number is present and non-zero (`if p:` on an int). -/
def addElTo (secs : List Sec) (p : String) (el : DocElem) : List Sec :=
  secs.map (fun s =>
    if s.path = p then
      let s1 := { s with els := s.els ++ [el] }
      match el.page with
      | some pg => if pg ≠ 0 then { s1 with pages := addPage s1.pages pg } else s1
      | none => s1
    else s)

/-- State of the second pass: the section buckets, `current_section`
and `last_content_section`. -/
abbrev St2 := List Sec × Option String × Option String

/-- Core of one second-pass step, the skip decision for the TOC-marker
index check being passed in as a boolean. -/
def pass2Core (skip : Bool) (el : DocElem) (st : St2) : St2 :=
  let secs := st.1
  let cur := st.2.1
  let lastC := st.2.2
  let txt := trimS el.txt
  if skip || kindIsHFP el.kind || isFooterOrDisclaimer txt then st
  else if el.kind = .image then
    match (match lastC with | some t => some t | none => cur) with
    | some target => (addElTo secs target el, cur, lastC)
    | none => st
  else
    let pot := inferSection txt false
    let isPure := (el.kind = .table : Bool) && (inferSection txt true).isSome
    let switched := match pot with
      | some p => secsHas secs p && (cur ≠ some p : Bool)
      | none => false
    let cur1 := if switched then pot else cur
    if switched && isPure then (secs, cur1, lastC)
    else
      match cur1 with
      | some c => (addElTo secs c el, cur1, if isPure then lastC else some c)
      | none => (secs, cur1, lastC)

/-- One second-pass step at element index `idx`. -/
def pass2Step (toc : List Nat) (idx : Nat) (el : DocElem) (st : St2) : St2 :=
  pass2Core (toc.contains idx) el st

/-- The second pass walks the elements in order, threading the state. -/
def pass2Go (toc : List Nat) : Nat → List DocElem → St2 → St2
  | _, [], st => st
  | n, e :: rest, st => pass2Go toc (n + 1) rest (pass2Step toc n e st)

/-! ## Chunk assembly (phase 3) -/

/-- Final chunk metadata record (`_mk_meta` plus the chunk type). -/
structure ChunkMeta where
  section_path : String
  section_title : String
  section_title_norm : String
  chunk_type : String
  group_id : String
  order_in_group : Nat
  within_section_index : Nat
  page_range : Option (Nat × Nat)
  image_count : Nat
  table_count : Nat
  content_sha : String
deriving DecidableEq

/-- Per-section context captured by the `_mk_meta` closure. -/
structure SecCtx where
  path : String
  title : String
  group_id : String
  page_range : Option (Nat × Nat)
deriving DecidableEq

/-- `_mk_meta`, with the loop variable `order` passed explicitly. -/
def mkMeta (ctx : SecCtx) (order : Nat) (ctype content : String) : ChunkMeta :=
  { section_path := ctx.path
    section_title := ctx.title
    section_title_norm := normStr ctx.title
    chunk_type := ctype
    group_id := ctx.group_id
    order_in_group := order
    within_section_index := order
    page_range := ctx.page_range
    image_count := countOccsS content "[IMAGEN]"
    table_count := countOccsS content "| ---"
    content_sha := contentSha content }

/-- Merge the three blocks exactly as every rule does: each non-empty
block is joined by blank lines, the blocks are joined by blank lines, and
the result is stripped. -/
def assembleContent (texts tables descs : List String) : String :=
  let cp := (if texts.isEmpty then [] else [joinSep "\n\n" texts])
         ++ (if tables.isEmpty then [] else [joinSep "\n\n" tables])
         ++ (if descs.isEmpty then [] else [joinSep "\n\n" descs])
  trimS (joinSep "\n\n" (cp.filter (fun p => p ≠ "")))

/-- Bucketing loop of Rule "1": texts, markdown tables not containing the
template boilerplate phrase, and the image buffer, in element order. -/
def bucket1 : List DocElem → List String × List String × List DocElem
  | [] => ([], [], [])
  | e :: rest =>
    let b := bucket1 rest
    match e.kind with
    | .image => (b.1, b.2.1, e :: b.2.2)
    | .table =>
      let mdT := elementToMarkdown e
      if mdT ≠ "" && !containsS (lowerStr mdT) "control de la plantilla"
      then (b.1, mdT :: b.2.1, b.2.2) else b
    | _ =>
      let tx := trimS e.txt
      if tx ≠ "" then (tx :: b.1, b.2.1, b.2.2) else b

/-- The merged content of Rule "1" for a given element list. -/
def rule1Content (els : List DocElem) : String :=
  assembleContent (bucket1 els).1 (bucket1 els).2.1
    (describeImages (bucket1 els).2.2)

/-- Rule "1" (bulk merge): one chunk when the merged content is
non-empty. -/
def rule1 (ctx : SecCtx) (els : List DocElem) : List String × List ChunkMeta :=
  if rule1Content els = "" then ([], [])
  else ([rule1Content els],
        [mkMeta ctx 1
          (if (describeImages (bucket1 els).2.2).isEmpty then "text" else "mixed")
          (rule1Content els)])

/-- The assembled content of one step buffer of Rule "2". -/
def flushContent (bt bta : List String) (bi : List DocElem) : String :=
  assembleContent bt bta (describeImages bi)

/-- `flush_step` of Rule "2": nothing happens on an empty buffer; a
non-empty assembled content is emitted as one chunk and advances
`order`. -/
def flushStep (ctx : SecCtx) (order : Nat) (bt bta : List String)
    (bi : List DocElem) : List String × List ChunkMeta × Nat :=
  if bt.isEmpty && bta.isEmpty && bi.isEmpty then ([], [], order)
  else if flushContent bt bta bi = "" then ([], [], order)
  else ([flushContent bt bta bi],
        [mkMeta ctx order
          (if (describeImages bi).isEmpty then "text" else "mixed")
          (flushContent bt bta bi)],
        order + 1)

/-- Element loop of Rule "2" (stepped): `bt`/`bta`/`bi` are the step
buffer, `hasEv` the `has_evidence` flag, `order` the next
`order_in_group`; the buffer is flushed when a non-empty text arrives
while evidence is attached to already-buffered text, and once more at the
end of the section. -/
def rule2Go (ctx : SecCtx) : List DocElem → List String → List String →
    List DocElem → Bool → Nat → List String × List ChunkMeta
  | [], bt, bta, bi, _, order =>
    let f := flushStep ctx order bt bta bi
    (f.1, f.2.1)
  | e :: rest, bt, bta, bi, hasEv, order =>
    match e.kind with
    | .image => rule2Go ctx rest bt bta (bi ++ [e]) true order
    | .table =>
      let mdT := elementToMarkdown e
      if mdT = "" then rule2Go ctx rest bt bta bi hasEv order
      else rule2Go ctx rest bt (bta ++ [mdT]) bi true order
    | _ =>
      let tx := trimS e.txt
      if tx = "" then rule2Go ctx rest bt bta bi hasEv order
      else if hasEv && !bt.isEmpty then
        let f := flushStep ctx order bt bta bi
        let r := rule2Go ctx rest [tx] [] [] false f.2.2
        (f.1 ++ r.1, f.2.1 ++ r.2)
      else rule2Go ctx rest (bt ++ [tx]) bta bi hasEv order

/-- Rule "2" entry point. -/
def rule2 (ctx : SecCtx) (els : List DocElem) : List String × List ChunkMeta :=
  rule2Go ctx els [] [] [] false 1

/-- Bucketing loop of the standard rule: a table is kept when its
markdown is non-empty and the non-strict classification differs from the
current section path. -/
def bucketStd (path : String) : List DocElem → List String × List String × List DocElem
  | [] => ([], [], [])
  | e :: rest =>
    let b := bucketStd path rest
    match e.kind with
    | .image => (b.1, b.2.1, e :: b.2.2)
    | .table =>
      let mdT := elementToMarkdown e
      if mdT ≠ "" && (inferSection mdT false ≠ some path : Bool)
      then (b.1, mdT :: b.2.1, b.2.2) else b
    | _ =>
      let tx := trimS e.txt
      if tx ≠ "" then (tx :: b.1, b.2.1, b.2.2) else b

/-- The merged content of the standard rule for a given path and element
list. -/
def ruleStdContent (path : String) (els : List DocElem) : String :=
  assembleContent (bucketStd path els).1 (bucketStd path els).2.1
    (describeImages (bucketStd path els).2.2)

/-- Standard rule: one chunk when the merged content is non-empty. -/
def ruleStd (ctx : SecCtx) (els : List DocElem) : List String × List ChunkMeta :=
  if ruleStdContent ctx.path els = "" then ([], [])
  else ([ruleStdContent ctx.path els],
        [mkMeta ctx 1
          (if (describeImages (bucketStd ctx.path els).2.2).isEmpty then "text" else "mixed")
          (ruleStdContent ctx.path els)])

/-- Insertion into a sorted list of naturals. -/
def insertNat (x : Nat) : List Nat → List Nat
  | [] => [x]
  | y :: ys => if x ≤ y then x :: y :: ys else y :: insertNat x ys

/-- Ascending sort of the page set (Python `sorted`). -/
def sortNat (l : List Nat) : List Nat := l.foldr insertNat []

/-- Code-point lexicographic order on character lists. -/
def lexLeCh : List Char → List Char → Bool
  | [], _ => true
  | _ :: _, [] => false
  | a :: as, b :: bs => if a = b then lexLeCh as bs else decide (a < b)

/-- Python string comparison for `sorted(sections.keys())`. -/
def strLe (a b : String) : Bool := lexLeCh a.data b.data

/-- Insertion into a list sorted by `le`. -/
def insertByLe {α : Type} (le : α → α → Bool) (x : α) : List α → List α
  | [] => [x]
  | y :: ys => if le x y then x :: y :: ys else y :: insertByLe le x ys

/-- Sections ordered by path, as `sorted(sections.keys())` visits them. -/
def sortSecs (secs : List Sec) : List Sec :=
  secs.foldr (insertByLe (fun a b => strLe a.path b.path)) []

/-- Last element, with the first argument as the running default. -/
def lastOf (x : Nat) : List Nat → Nat
  | [] => x
  | y :: ys => lastOf y ys

/-- The per-section context captured by `_mk_meta`: path, title, group
id, and the min/max of the sorted page set. -/
def secCtxOf (sec : Sec) : SecCtx :=
  ⟨sec.path, sec.title, "sec:" ++ sec.path,
    match sortNat sec.pages with
    | [] => none
    | p :: ps => some (p, lastOf p ps)⟩

/-- Assemble one section: nothing for an empty bucket, otherwise the rule
selected by the path, in the context captured by `_mk_meta`. -/
def assembleSection (sec : Sec) : List String × List ChunkMeta :=
  if sec.els.isEmpty then ([], [])
  else if sec.path = "1" then rule1 (secCtxOf sec) sec.els
  else if sec.path = "2" then rule2 (secCtxOf sec) sec.els
  else ruleStd (secCtxOf sec) sec.els

/-- Phase 3 over the path-sorted sections, concatenating chunk and
metadata lists. -/
def phase3 : List Sec → List String × List ChunkMeta
  | [] => ([], [])
  | s :: rest =>
    let a := assembleSection s
    let r := phase3 rest
    (a.1 ++ r.1, a.2 ++ r.2)

/-- Initial section buckets built from the Section Registry. -/
def initSecs (ts : List (String × String)) : List Sec :=
  ts.map (fun kv => ⟨kv.1, kv.2, [], []⟩)

/-- `process_document_by_section_async`: pass 1, pass 2, then per-section
chunk assembly in sorted path order. -/
def processDocument (elements : List DocElem) : List String × List ChunkMeta :=
  let p1 := pass1 elements
  let st := pass2Go p1.2 0 elements (initSecs p1.1, none, none)
  phase3 (sortSecs st.1)

-- end-to-end sanity checks of the engine on a small document
def sHeading2 : DocElem := { kind := .text, txt := "2. Evidencia del Hallazgo" }
def sWs : DocElem := { kind := .text, txt := "   " }
def sText2 : DocElem := { kind := .text, txt := "evidencia hallazgo numero uno" }
def sMarker2 : DocElem := { kind := .table, txt := "evidencia hallazgo", tableMd := "evidencia hallazgo" }

example : (pass1 [sHeading2, sText2, sMarker2]).1 = [("2", "Evidencia del Hallazgo")] := by decide
example : (pass1 [sHeading2, sText2, sMarker2]).2 = [0] := by decide
example : (processDocument [sHeading2, sText2, sMarker2]).1 =
    ["evidencia hallazgo numero uno\n\nevidencia hallazgo"] := by decide

-- concrete stepped-rule scenario
def sA : DocElem := { kind := .text, txt := "primera observacion del error" }
def sI1 : DocElem := { kind := .image, txt := "[IMAGEN]", vision := .replied true "pantalla uno" }
def sB : DocElem := { kind := .text, txt := "segunda observacion del error" }
def sTab : DocElem := { kind := .table, txt := "detalle", tableMd := "detalle tecnico de la tabla" }
def sI2 : DocElem := { kind := .image, txt := "[IMAGEN]", vision := .replied true "pantalla dos" }
def sC : DocElem := { kind := .text, txt := "tercera observacion del error" }
def sSec2 : Sec := { path := "2", title := "Evidencias", els := [sA, sI1, sB, sTab, sI2, sC], pages := [] }

example : (assembleSection sSec2).1 =
  ["primera observacion del error\n\n[IMAGEN] pantalla uno",
   "segunda observacion del error\n\ndetalle tecnico de la tabla\n\n[IMAGEN] pantalla dos",
   "tercera observacion del error"] := by decide
example : (assembleSection sSec2).2.map (fun m => m.order_in_group) = [1, 2, 3] := by decide
example : (assembleSection sSec2).2.map (fun m => m.chunk_type) = ["mixed", "mixed", "text"] := by decide

-- concrete standard-rule scenario
def sTxt3 : DocElem := { kind := .text, txt := "respuesta al caso planteado" }
def sTabOther : DocElem := { kind := .table, txt := "t", tableMd := "evidencia hallazgo del caso" }
def sTabOwn : DocElem := { kind := .table, txt := "t", tableMd := "respuesta consultoria del equipo" }
def sSec3 : Sec := { path := "3", title := "Solucion", els := [sTxt3, sTabOther, sTabOwn], pages := [] }

example : inferSection "evidencia hallazgo del caso" false = some "2" := by decide
example : inferSection "respuesta consultoria del equipo" false = some "3" := by decide
example : (assembleSection sSec3).1 =
  ["respuesta al caso planteado\n\nevidencia hallazgo del caso"] := by decide

-- concrete failed-image scenario
def sImgBad : DocElem := { kind := .image, txt := "[IMAGEN]", vision := .noBytes }
def sSecImg : Sec := { path := "3", title := "Resp", els := [sTxt3, sImgBad], pages := [] }
example : describeImages [sImgBad] = [] := by decide
example : (assembleSection sSecImg).1 = ["respuesta al caso planteado"] := by decide
example : containsS "respuesta al caso planteado" "[IMAGEN]" = false := by decide

-- concrete heading-registration scenario
def sH1a : DocElem := { kind := .text, txt := "1. Alpha" }
def sH1b : DocElem := { kind := .text, txt := "1. Beta" }
example : (pass1 [sH1a, sH1b]).1 = [("1", "Beta")] := by decide
def sH11 : DocElem := { kind := .text, txt := "1.1 Sub" }
def sH1top : DocElem := { kind := .text, txt := "1. Top" }
example : (pass1 [sH11, sH1top]).1 = [("1", "Top")] := by decide
example : (pass1 [sH11]).1 = [("1", "Sub")] := by decide

-- degenerate documents
example : processDocument [] = ([], []) := by decide
example : (pass1 [sText2]).1 = [] := by decide
example : processDocument [sText2] = ([], []) := by decide

-- a long line is still detected as a heading
example : (detectHeading (String.mk ('1' :: '.' :: ' ' :: List.replicate 297 'a'))).isSome = true := by decide

/-! ## Claim C1: table filtering of the standard rule -/

/-- Characterization of which tables the standard rule keeps: the
rendered markdown is non-empty and the non-strict classification is NOT
the section own path (a table classified to a different section, or to no
section, is included; a table classified to the section own path is
excluded). -/
def stdTableSel (path : String) (e : DocElem) : Option String :=
  match e.kind with
  | .table =>
    let mdT := elementToMarkdown e
    if mdT ≠ "" ∧ inferSection mdT false ≠ some path then some mdT else none
  | _ => none

/-- C1 (amended): in the standard rule, the markdown of a table element enters
the table block of the chunk content iff the markdown is non-empty and
the Content-Section Inferencer in non-strict mode does not classify it as
the section own path; equivalently, the table block is exactly the
in-order selection by `stdTableSel`. -/
theorem claim_C1_amended (path : String) (els : List DocElem) :
    (bucketStd path els).2.1 = els.filterMap (stdTableSel path) := by
  induction els with
  | nil => rfl
  | cons e rest ih =>
    cases hk : e.kind
    case table =>
      simp only [bucketStd, hk, List.filterMap_cons]
      by_cases h1 : elementToMarkdown e = "" <;>
        by_cases h2 : inferSection (elementToMarkdown e) false = some path <;>
          simp [stdTableSel, hk, h1, h2, ih]
    case image => simp [bucketStd, stdTableSel, hk, ih]
    all_goals
      simp only [bucketStd, hk, List.filterMap_cons]
      have hsel : stdTableSel path e = none := by simp [stdTableSel, hk]
      rw [hsel]
      split <;> simp [ih]

/-- C1 counterexample: section "3" with a text element, a table whose
markdown classifies to the different section "2", and a table whose
markdown classifies to the own section "3".  The claim says the first
table is excluded and the second included; the code does the opposite:
the emitted chunk contains the "2"-classified markdown and omits the
"3"-classified one. -/
theorem claim_C1_counterexample :
    inferSection (elementToMarkdown sTabOther) false = some "2" ∧
    inferSection (elementToMarkdown sTabOwn) false = some "3" ∧
    (assembleSection sSec3).1 =
      ["respuesta al caso planteado\n\nevidencia hallazgo del caso"] ∧
    containsS "respuesta al caso planteado\n\nevidencia hallazgo del caso"
      (elementToMarkdown sTabOther) = true ∧
    containsS "respuesta al caso planteado\n\nevidencia hallazgo del caso"
      (elementToMarkdown sTabOwn) = false := by
  exact ⟨by decide, by decide, by decide, by decide, by decide⟩

/-! ## Claim C3: failed images and placeholders -/

/-- Per-image outcome of the description loop: an image without
materializable bytes produces nothing at all, a raising provider call
produces the fixed error placeholder, and an unsuccessful or empty reply
produces the fixed unavailable placeholder. -/
def describeOne (el : DocElem) : Option String :=
  match el.vision with
  | .noBytes => none
  | .raisesExc => some "[IMAGEN] Error de procesamiento"
  | .replied ok resp =>
    let t := if ok then trimS resp else ""
    some ("[IMAGEN] " ++ (if t = "" then "Descripción no disponible." else t))

/-- C3 (amended): the image-description stage substitutes the fixed
placeholder only when the Vision Adapter raises or reports failure; an
image whose bytes cannot be materialized is silently skipped and
contributes no placeholder (the rest of the section content is assembled
unchanged either way). -/
theorem claim_C3_amended (images : List DocElem) :
    describeImages images = images.filterMap describeOne := by
  induction images with
  | nil => rfl
  | cons e rest ih =>
    cases hv : e.vision <;>
      simp [describeImages, describeOne, hv, ih]

/-- C3 counterexample: a section holding one text element and one image
whose bytes cannot be materialized.  The claim requires the emitted chunk
to contain a fixed placeholder description for that image; the code skips
the image entirely, so the chunk contains no image marker at all. -/
theorem claim_C3_counterexample :
    (sImgBad.vision = VisionOutcome.noBytes) ∧
    describeImages [sImgBad] = [] ∧
    (assembleSection sSecImg).1 = ["respuesta al caso planteado"] ∧
    containsS "respuesta al caso planteado" "[IMAGEN]" = false := by
  exact ⟨rfl, by decide, by decide, by decide⟩

/-! ## Claim C5: the stepped rule on the canonical six-element sequence -/

/-- C5: for a section with path "2" and assigned elements
[Text A, Image, Text B, Table, Image, Text C], the engine emits exactly
three chunks: {A, first image description}, {B, table, second image
description} (both from in-loop flushes), and {C} from the final flush,
with orders 1, 2, 3. -/
theorem claim_C5_stepped_flush :
    (assembleSection sSec2).1 =
      ["primera observacion del error\n\n[IMAGEN] pantalla uno",
       "segunda observacion del error\n\ndetalle tecnico de la tabla\n\n[IMAGEN] pantalla dos",
       "tercera observacion del error"] ∧
    (assembleSection sSec2).2.map (fun m => m.order_in_group) = [1, 2, 3] ∧
    (assembleSection sSec2).2.map (fun m => m.chunk_type) = ["mixed", "mixed", "text"] := by
  exact ⟨by decide, by decide, by decide⟩

/-! ## Claim C6: the bulk rule emits at most one chunk -/

/-- The bulk rule content of the empty element list is empty. -/
theorem rule1Content_nil : rule1Content [] = "" := by decide

/-- C6: a section with path "1" emits exactly one chunk when the merged
content (texts, then non-boilerplate tables, then image descriptions) is
non-empty and zero chunks when it is empty; in particular never more than
one chunk, whatever the elements are. -/
theorem claim_C6_bulk_single_chunk (title : String) (pages : List Nat)
    (els : List DocElem) :
    (assembleSection ⟨"1", title, els, pages⟩).1 =
      (if rule1Content els = "" then [] else [rule1Content els]) ∧
    (assembleSection ⟨"1", title, els, pages⟩).1.length ≤ 1 := by
  have h : (assembleSection ⟨"1", title, els, pages⟩).1 =
      (if rule1Content els = "" then [] else [rule1Content els]) := by
    cases els with
    | nil => simp [assembleSection, rule1Content_nil]
    | cons e rest =>
      simp only [assembleSection, rule1, rule1Content, List.isEmpty_cons,
        Bool.false_eq_true, if_false, if_true, reduceIte]
      split <;> simp_all
  refine ⟨h, ?_⟩
  rw [h]
  split <;> simp

/-! ## Claim C2: pure markers in pass 2 -/

/-- A successful strict (marker) classification agrees with the
non-strict classification. -/
theorem inferSection_strict_imp {t p : String}
    (h : inferSection t true = some p) : inferSection t false = some p := by
  unfold inferSection at h ⊢
  cases hh : sectionHits t with
  | nil => rw [hh] at h; exact absurd h (by simp)
  | cons m ms =>
    rw [hh] at h
    show some m = some p
    have h2 : (if (wordCountS t < 10 && (m :: ms).length = 1 : Bool) = true
        then some m else none) = some p := h
    by_cases hc : (wordCountS t < 10 && (m :: ms).length = 1 : Bool) = true
    · rwa [if_pos hc] at h2
    · rw [if_neg hc] at h2
      exact absurd h2 (by simp)

/-- C2 (amended): in Pass 2, a non-noise, non-TOC Table element that is a
pure marker (strict classification succeeds), whose matched section is
registered AND differs from the current section, switches
`current_section` to that section and is discarded: the section buckets
and `last_content_section` are unchanged, so its text can reach no chunk.
(When the matched section already equals the current section, the code
instead appends the marker to the current bucket.) -/
theorem claim_C2_amended (toc : List Nat) (idx : Nat) (el : DocElem)
    (secs : List Sec) (cur lastC : Option String) (p : String)
    (hk : el.kind = EKind.table)
    (hm : inferSection (trimS el.txt) true = some p)
    (hreg : secsHas secs p = true)
    (hdiff : cur ≠ some p)
    (htoc : toc.contains idx = false)
    (hnoise : isFooterOrDisclaimer (trimS el.txt) = false) :
    pass2Step toc idx el (secs, cur, lastC) = (secs, some p, lastC) := by
  have hpot : inferSection (trimS el.txt) false = some p := inferSection_strict_imp hm
  have htoc2 : idx ∉ toc := by simpa using htoc
  unfold pass2Step pass2Core
  simp [htoc, htoc2, hnoise, hk, hpot, hm, hreg, hdiff, kindIsHFP]

/-- C2 amended witness: a concrete pure-marker table for the registered
section "2" arriving while no section is current. -/
theorem claim_C2_amended_witness :
    pass2Step [] 0 sMarker2 ([⟨"2", "T", [], []⟩], none, none) =
      ([⟨"2", "T", [], []⟩], some "2", none) :=
  claim_C2_amended [] 0 sMarker2 [⟨"2", "T", [], []⟩] none none "2"
    rfl (by decide) (by decide) (by decide) (by decide) (by decide)

/-- C2 counterexample: a document whose section "2" is already current
when a pure-marker table for section "2" arrives.  The marker is a pure
marker of a registered section, yet its text appears in the emitted
chunk, contradicting the unconditional discard stated by the claim. -/
theorem claim_C2_counterexample :
    inferSection (trimS sMarker2.txt) true = some "2" ∧
    secsHas (initSecs (pass1 [sHeading2, sText2, sMarker2]).1) "2" = true ∧
    (processDocument [sHeading2, sText2, sMarker2]).1 =
      ["evidencia hallazgo numero uno\n\nevidencia hallazgo"] ∧
    containsS "evidencia hallazgo numero uno\n\nevidencia hallazgo"
      (trimS sMarker2.txt) = true := by
  exact ⟨by decide, by decide, by decide, by decide⟩

/-! ## Claim C7: order_in_group is gapless from 1 within a section -/

/-- Concatenation of adjacent `range'` blocks with step one. -/
theorem range1_append (s m n : Nat) :
    List.range' s m ++ List.range' (s + m) n = List.range' s (m + n) := by
  have h := List.range'_append s m n 1
  simp only [Nat.one_mul] at h
  rw [h, Nat.add_comm]

/-- A flush emits metadata orders `range' order k` and advances `order`
by the number of emitted chunks. -/
theorem flushStep_orders (ctx : SecCtx) (order : Nat) (bt bta : List String)
    (bi : List DocElem) :
    (flushStep ctx order bt bta bi).2.1.map (fun m => m.order_in_group) =
      List.range' order (flushStep ctx order bt bta bi).2.1.length ∧
    (flushStep ctx order bt bta bi).2.2 =
      order + (flushStep ctx order bt bta bi).2.1.length := by
  unfold flushStep
  split
  · simp
  · split
    · simp
    · simp [mkMeta, List.range']

/-- The stepped loop emits metadata orders `range' order k`, whatever the
buffer and flag state. -/
theorem rule2Go_orders (ctx : SecCtx) :
    ∀ (els : List DocElem) (bt bta : List String) (bi : List DocElem)
      (hasEv : Bool) (order : Nat),
    (rule2Go ctx els bt bta bi hasEv order).2.map (fun m => m.order_in_group) =
      List.range' order (rule2Go ctx els bt bta bi hasEv order).2.length
  | [], bt, bta, bi, hasEv, order => by
    simpa [rule2Go] using (flushStep_orders ctx order bt bta bi).1
  | e :: rest, bt, bta, bi, hasEv, order => by
    cases hk : e.kind
    case image =>
      simpa [rule2Go, hk] using
        rule2Go_orders ctx rest bt bta (bi ++ [e]) true order
    case table =>
      by_cases hmd : elementToMarkdown e = ""
      · simpa [rule2Go, hk, hmd] using
          rule2Go_orders ctx rest bt bta bi hasEv order
      · simpa [rule2Go, hk, hmd] using
          rule2Go_orders ctx rest bt (bta ++ [elementToMarkdown e]) bi true order
    all_goals (
      by_cases htx : trimS e.txt = ""
      · simpa [rule2Go, hk, htx] using
          rule2Go_orders ctx rest bt bta bi hasEv order
      · by_cases hfl : (hasEv && !bt.isEmpty) = true
        · obtain ⟨hf1, hf2⟩ := flushStep_orders ctx order bt bta bi
          have hr := rule2Go_orders ctx rest [trimS e.txt] [] [] false
            (order + (flushStep ctx order bt bta bi).2.1.length)
          simp only [rule2Go, hk, htx, hfl, if_false, if_true, reduceIte,
            List.map_append, List.length_append]
          rw [hf1, hf2, hr, range1_append]
        · simpa [rule2Go, hk, htx, hfl] using
            rule2Go_orders ctx rest (bt ++ [trimS e.txt]) bta bi hasEv order)

/-- The bulk rule emits orders `range' 1 k`. -/
theorem rule1_orders (ctx : SecCtx) (els : List DocElem) :
    (rule1 ctx els).2.map (fun m => m.order_in_group) =
      List.range' 1 (rule1 ctx els).2.length := by
  unfold rule1
  split
  · simp
  · simp [mkMeta, List.range']

/-- The standard rule emits orders `range' 1 k`. -/
theorem ruleStd_orders (ctx : SecCtx) (els : List DocElem) :
    (ruleStd ctx els).2.map (fun m => m.order_in_group) =
      List.range' 1 (ruleStd ctx els).2.length := by
  unfold ruleStd
  split
  · simp
  · simp [mkMeta, List.range']

/-- C7: within any one section, the `order_in_group` values of the
emitted chunks form the contiguous, strictly increasing, gapless sequence
1, 2, …, k — also when a stepped flush produces empty content and emits
nothing. -/
theorem claim_C7_orders (sec : Sec) :
    (assembleSection sec).2.map (fun m => m.order_in_group) =
      List.range' 1 (assembleSection sec).2.length := by
  unfold assembleSection
  by_cases he : sec.els.isEmpty
  · simp [he]
  · simp only [he, Bool.false_eq_true, if_false]
    by_cases h1 : sec.path = "1"
    · simp only [h1, reduceIte]
      exact rule1_orders (secCtxOf sec) sec.els
    · by_cases h2 : sec.path = "2"
      · simp only [h1, h2, reduceIte]
        exact rule2Go_orders _ _ _ _ _ _ _
      · simp only [h1, h2, reduceIte]
        exact ruleStd_orders (secCtxOf sec) sec.els

/-! ## Claim C8: no headings implies no chunks -/

/-- Appending to the bucket of any path leaves an empty section list
empty. -/
theorem addElTo_nil (p : String) (el : DocElem) : addElTo [] p el = [] := by
  simp [addElTo]

/-- One pass-2 step preserves an empty section list. -/
theorem pass2Core_nil_secs (skip : Bool) (el : DocElem) (st : St2)
    (h : st.1 = []) : (pass2Core skip el st).1 = [] := by
  obtain ⟨secs, cur, lastC⟩ := st
  simp only at h
  subst h
  unfold pass2Core
  dsimp only
  split
  · rfl
  · split
    · split
      · simp [addElTo]
      · rfl
    · split
      · rfl
      · split
        · simp [addElTo]
        · rfl

/-- The whole second pass preserves an empty section list. -/
theorem pass2Go_nil_secs (toc : List Nat) :
    ∀ (els : List DocElem) (n : Nat) (st : St2), st.1 = [] →
      (pass2Go toc n els st).1 = []
  | [], _, _, h => h
  | e :: rest, n, st, h =>
    pass2Go_nil_secs toc rest (n + 1) (pass2Step toc n e st)
      (pass2Core_nil_secs (toc.contains n) e st h)

/-- C8: whenever Pass 1 registers no section (in particular on the empty
element sequence), the engine returns zero chunks and zero metadata
records: no `current_section` can ever be established, so every content
element is dropped. -/
theorem claim_C8_no_headings_no_chunks (els : List DocElem)
    (h : (pass1 els).1 = []) : processDocument els = ([], []) := by
  have h0 : initSecs (pass1 els).1 = [] := by rw [h]; rfl
  have h2 : (pass2Go (pass1 els).2 0 els (initSecs (pass1 els).1, none, none)).1 = [] := by
    apply pass2Go_nil_secs
    simpa using h0
  show phase3 (sortSecs
      (pass2Go (pass1 els).2 0 els (initSecs (pass1 els).1, none, none)).1) = ([], [])
  rw [h2]
  rfl

/-- C8 witness: a one-element document with no detectable heading
produces zero chunks; the empty document likewise. -/
theorem claim_C8_witness :
    (pass1 [sText2]).1 = [] ∧ processDocument [sText2] = ([], []) ∧
    (pass1 []).1 = [] ∧ processDocument [] = ([], []) :=
  ⟨by decide, claim_C8_no_headings_no_chunks [sText2] (by decide),
   by decide, claim_C8_no_headings_no_chunks [] (by decide)⟩

/-! ## Claim C4: which heading supplies a registered title -/

/-- The heading contribution of one element in pass 1: `none` for noise
elements and non-headings, otherwise the detected path and title. -/
def headingOf (e : DocElem) : Option (String × String) :=
  if kindIsHFP e.kind || isFooterOrDisclaimer (trimS e.txt) then none
  else
    match detectHeading (trimS e.txt) with
    | some (p, t) => if p ≠ "" && t ≠ "" then some (p, t) else none
    | none => none

/-- The in-order list of detected headings of a document. -/
def headings (els : List DocElem) : List (String × String) :=
  els.filterMap headingOf

/-- The registration step of pass 1 for one detected heading. -/
def regStep (ts : List (String × String)) (h : String × String) :
    List (String × String) :=
  if (assocLookup ts (getSectionParent h.1)).isNone || h.1 = getSectionParent h.1
  then assocSet ts (getSectionParent h.1) h.2 else ts

/-- Registration of a heading list, left to right. -/
def titlesFold (ts : List (String × String)) (hs : List (String × String)) :
    List (String × String) :=
  hs.foldl regStep ts

/-- The title the registry ends up with for `parent`, described over the
heading list (with a fallback registry `ts0` for the generalized
induction): the title of the last heading whose path is exactly `parent`;
otherwise whatever `ts0` holds; otherwise the title of the first heading
whose top-level parent is `parent`. -/
def specTitleAux (ts0 hs : List (String × String)) (parent : String) :
    Option String :=
  match (hs.filter (fun h => decide (h.1 = parent))).getLast? with
  | some h => some h.2
  | none =>
    match assocLookup ts0 parent with
    | some v => some v
    | none =>
      ((hs.filter (fun h => decide (getSectionParent h.1 = parent))).head?).map
        (fun h => h.2)

/-- The title the registry ends up with for `parent`, described over the
heading list alone. -/
def specTitleFor (hs : List (String × String)) (parent : String) :
    Option String :=
  specTitleAux [] hs parent

/-- Setting a key makes lookup of that key return the value. -/
theorem assocLookup_set_self (ts : List (String × String)) (k v : String) :
    assocLookup (assocSet ts k v) k = some v := by
  induction ts with
  | nil => simp [assocSet, assocLookup]
  | cons kv rest ih =>
    obtain ⟨k0, v0⟩ := kv
    by_cases hk : k0 = k <;> simp [assocSet, assocLookup, hk, ih]

/-- Setting a key leaves lookup of other keys unchanged. -/
theorem assocLookup_set_other (ts : List (String × String)) (k v k' : String)
    (h : k' ≠ k) : assocLookup (assocSet ts k v) k' = assocLookup ts k' := by
  have hkk : ¬(k = k') := fun he => h he.symm
  induction ts with
  | nil => simp [assocSet, assocLookup, hkk]
  | cons kv rest ih =>
    obtain ⟨k0, v0⟩ := kv
    by_cases hk : k0 = k
    · subst hk
      simp [assocSet, assocLookup, hkk]
    · by_cases hk' : k0 = k' <;> simp [assocSet, assocLookup, hk, hk', ih, h]

/-- The registry built by pass 1 is the left fold of the registration
step over the detected headings, whatever the element index and the TOC
accumulator. -/
theorem pass1Go_titles :
    ∀ (els : List DocElem) (n : Nat) (ts : List (String × String))
      (toc : List Nat),
    (pass1Go n els ts toc).1 = titlesFold ts (headings els)
  | [], _, _, _ => rfl
  | e :: rest, n, ts, toc => by
    by_cases hskip : (kindIsHFP e.kind || isFooterOrDisclaimer (trimS e.txt)) = true
    · have hh : headingOf e = none := by simp [headingOf, hskip]
      simp only [pass1Go, hskip, if_true, headings, List.filterMap_cons, hh]
      exact pass1Go_titles rest (n + 1) ts toc
    · cases hd : detectHeading (trimS e.txt) with
      | none =>
        have hh : headingOf e = none := by simp [headingOf, hskip, hd]
        simp only [pass1Go, hskip, Bool.false_eq_true, if_false, hd, headings,
          List.filterMap_cons, hh]
        exact pass1Go_titles rest (n + 1) ts toc
      | some pt =>
        obtain ⟨p, t⟩ := pt
        by_cases hv : (p ≠ "" && t ≠ "") = true
        · have hh : headingOf e = some (p, t) := by simp_all [headingOf]
          simp only [pass1Go, hskip, Bool.false_eq_true, if_false, hd, hv,
            if_true, headings, List.filterMap_cons, hh]
          rw [pass1Go_titles rest (n + 1) _ _]
          rfl
        · have hh : headingOf e = none := by simp_all [headingOf]
          simp only [pass1Go, hskip, Bool.false_eq_true, if_false, hd, hv,
            headings, List.filterMap_cons, hh]
          exact pass1Go_titles rest (n + 1) ts toc

/-- Characterization of the registered title after folding a heading
list: the last heading with path exactly `parent` wins; otherwise the
initial registry entry; otherwise the first heading whose parent is
`parent`. -/
theorem titlesFold_lookup (parent : String)
    (hp : getSectionParent parent = parent) :
    ∀ (hs ts : List (String × String)),
      assocLookup (titlesFold ts hs) parent = specTitleAux ts hs parent := by
  intro hs
  induction hs using List.reverseRecOn with
  | nil =>
    intro ts
    cases hlk : assocLookup ts parent <;>
      simp [titlesFold, specTitleAux, hlk]
  | append_singleton hs' h ih =>
    intro ts
    have hfold : titlesFold ts (hs' ++ [h]) = regStep (titlesFold ts hs') h := by
      simp [titlesFold, List.foldl_append]
    rw [hfold]
    have ihT := ih ts
    by_cases hpp : h.1 = parent
    · have hpar : getSectionParent h.1 = parent := by rw [hpp, hp]
      have hcond : ((assocLookup (titlesFold ts hs')
          (getSectionParent h.1)).isNone || h.1 = getSectionParent h.1) = true := by
        rw [hpar, hpp]
        simp
      rw [regStep, if_pos hcond, hpar, assocLookup_set_self]
      have hf1 : List.filter (fun x => decide (x.1 = parent)) [h] = [h] := by
        simp [hpp]
      rw [specTitleAux, List.filter_append, hf1, List.getLast?_concat]
    · have hf1 : List.filter (fun x => decide (x.1 = parent)) [h] = [] := by
        simp [hpp]
      by_cases hpar : getSectionParent h.1 = parent
      · have hf2 : List.filter
            (fun x => decide (getSectionParent x.1 = parent)) [h] = [h] := by
          simp [hpar]
        cases hTl : assocLookup (titlesFold ts hs') parent with
        | none =>
          have hcond : ((assocLookup (titlesFold ts hs')
              (getSectionParent h.1)).isNone
                || h.1 = getSectionParent h.1) = true := by
            rw [hpar, hTl]
            simp
          rw [regStep, if_pos hcond, hpar, assocLookup_set_self]
          have hspec : specTitleAux ts hs' parent = none := by rw [← ihT, hTl]
          rw [specTitleAux] at hspec
          cases hgl : (hs'.filter (fun x => decide (x.1 = parent))).getLast? with
          | some h0 => rw [hgl] at hspec; simp at hspec
          | none =>
            rw [hgl] at hspec
            cases hts : assocLookup ts parent with
            | some v0 => rw [hts] at hspec; simp at hspec
            | none =>
              rw [hts] at hspec
              cases hhd : (hs'.filter
                  (fun x => decide (getSectionParent x.1 = parent))).head? with
              | some h0 => rw [hhd] at hspec; simp at hspec
              | none =>
                have hpe : hs'.filter (fun x => decide (x.1 = parent)) = [] :=
                  List.getLast?_eq_none_iff.mp hgl
                rw [specTitleAux, List.filter_append, List.filter_append,
                  hf1, hf2, List.append_nil, hpe, hts]
                rw [List.head?_append, hhd]
                rfl
        | some v =>
          have hcond : ((assocLookup (titlesFold ts hs')
              (getSectionParent h.1)).isNone
                || h.1 = getSectionParent h.1) = false := by
            rw [hpar, hTl]
            simp [hpp]
          rw [regStep, if_neg (by rw [hcond]; exact Bool.false_ne_true), hTl]
          have hspec : specTitleAux ts hs' parent = some v := by rw [← ihT, hTl]
          have hgoal : specTitleAux ts (hs' ++ [h]) parent = some v := by
            rw [specTitleAux, List.filter_append, List.filter_append,
              hf1, hf2, List.append_nil]
            rw [specTitleAux] at hspec
            cases hgl : (hs'.filter (fun x => decide (x.1 = parent))).getLast? with
            | some h0 => rw [hgl] at hspec; exact hspec
            | none =>
              rw [hgl] at hspec
              cases hts : assocLookup ts parent with
              | some v0 => rw [hts] at hspec; exact hspec
              | none =>
                rw [hts] at hspec
                cases hhd : (hs'.filter
                    (fun x => decide (getSectionParent x.1 = parent))).head? with
                | some h0 =>
                  rw [hhd] at hspec
                  rw [List.head?_append, hhd]
                  exact hspec
                | none => rw [hhd] at hspec; simp at hspec
          rw [hgoal]
      · have hf2 : List.filter
            (fun x => decide (getSectionParent x.1 = parent)) [h] = [] := by
          simp [hpar]
        have hlk : assocLookup (regStep (titlesFold ts hs') h) parent =
            assocLookup (titlesFold ts hs') parent := by
          rw [regStep]
          split
          · exact assocLookup_set_other _ _ _ _ (fun he => hpar he.symm)
          · rfl
        rw [hlk, ihT]
        rw [specTitleAux, specTitleAux, List.filter_append, List.filter_append,
          hf1, hf2, List.append_nil, List.append_nil]

/-- C4 (amended): for every top-level parent recorded in the Section
Registry, the stored title is that of the LAST detected heading whose
path equals the parent itself; only when no heading has that exact path
does the FIRST detected heading with that top-level parent (possibly a
sub-heading) supply the title.  (The claim said the first top-level
heading wins and is never replaced; the registration condition
`path == parent` re-registers on every later top-level heading, so the
last one wins.) -/
theorem claim_C4_amended (els : List DocElem) (parent : String)
    (hp : getSectionParent parent = parent) :
    assocLookup (pass1 els).1 parent = specTitleFor (headings els) parent := by
  have h1 : (pass1 els).1 = titlesFold [] (headings els) :=
    pass1Go_titles els 0 [] []
  rw [h1]
  exact titlesFold_lookup parent hp (headings els) []

/-- C4 amended witness: a sub-heading "1.1 Sub" followed by the top-level
heading "1. Top"; the registry stores "Top". -/
theorem claim_C4_witness :
    assocLookup (pass1 [sH11, sH1top]).1 "1" =
      specTitleFor (headings [sH11, sH1top]) "1" ∧
    specTitleFor (headings [sH11, sH1top]) "1" = some "Top" :=
  ⟨claim_C4_amended [sH11, sH1top] "1" (by decide), by decide⟩

/-- C4 counterexample: two top-level headings "1. Alpha" then "1. Beta".
The first detected top-level heading for parent "1" carries the title
"Alpha", but the registry ends with "Beta": a later top-level heading
replaces the first one, contradicting the claim. -/
theorem claim_C4_counterexample :
    detectHeading (trimS sH1a.txt) = some ("1", "Alpha") ∧
    detectHeading (trimS sH1b.txt) = some ("1", "Beta") ∧
    (pass1 [sH1a, sH1b]).1 = [("1", "Beta")] := by
  exact ⟨by decide, by decide, by decide⟩

/-! ## Claim C9: no length bound in the Heading Detector -/

/-- Trailing-strip is the identity on a block of letters. -/
theorem trimEnd_replicate_a : ∀ m : Nat,
    trimEnd (List.replicate m 'a') = List.replicate m 'a'
  | 0 => rfl
  | m + 1 => by
    rw [List.replicate_succ, trimEnd]
    rw [trimEnd_replicate_a m]
    cases m with
    | zero => rfl
    | succ k => rw [List.replicate_succ]

/-- A cons is preserved by trailing-strip when the tail does not strip to
nothing. -/
theorem trimEnd_cons_ne_nil (c : Char) (l : List Char)
    (h : trimEnd l ≠ []) : trimEnd (c :: l) = c :: trimEnd l := by
  rw [trimEnd]
  cases he : trimEnd l with
  | nil => exact absurd he h
  | cons x xs => rfl

/-- Whitespace collapsing is the identity on a block of letters. -/
theorem wsRunsTo_replicate_a : ∀ (m : Nat) (b : Bool),
    wsRunsTo ' ' b (List.replicate m 'a') = List.replicate m 'a'
  | 0, _ => rfl
  | m + 1, b => by
    have ha : isWsC 'a' = false := rfl
    rw [List.replicate_succ, wsRunsTo, ha]
    simp only [Bool.false_eq_true, if_false]
    rw [wsRunsTo_replicate_a m false]

/-- A non-empty block of letters never completes the tail pattern
`(?:\s+\d+)?\s*$`. -/
theorem suffixOK_replicate_a (m : Nat) :
    suffixOK (List.replicate (m + 1) 'a') = false := by
  rw [List.replicate_succ, suffixOK]
  have ha : isWsC 'a' = false := rfl
  simp [ha]

/-- The lazy title matcher takes a whole block of letters. -/
theorem titleSplit_replicate_a : ∀ m : Nat,
    titleSplit (List.replicate (m + 1) 'a') = some (List.replicate (m + 1) 'a')
  | 0 => rfl
  | m + 1 => by
    rw [List.replicate_succ, titleSplit,
      if_neg (by decide : ¬('a' = '\n')), suffixOK_replicate_a m]
    simp only [Bool.false_eq_true, if_false]
    rw [titleSplit_replicate_a m]

/-- `HEADING_RE` matches `1. aaa…a` for a letter block of any size,
capturing path `1` and the letter block as the title. -/
theorem matchHeading_letters (n : Nat) :
    matchHeading ('1' :: '.' :: ' ' :: List.replicate (n + 1) 'a') =
      some (['1'], List.replicate (n + 1) 'a') := by
  have h1 : isWsC '1' = false := rfl
  have hd1 : isDigitC '1' = true := rfl
  have hdd : isDigitC '.' = false := rfl
  have hds : isDigitC ' ' = false := rfl
  have hda : isDigitC 'a' = false := rfl
  have hsd : isSepC '.' = true := rfl
  have hss : isSepC ' ' = true := rfl
  have hsa : isSepC 'a' = false := rfl
  rw [matchHeading]
  simp only [List.dropWhile_cons, h1, Bool.false_eq_true, if_false,
    List.takeWhile_cons, hd1, if_true, hdd, List.isEmpty_cons,
    List.length_cons, List.length_nil, List.drop_succ_cons, List.drop_zero]
  rw [tryFrom]
  simp only [List.length_cons]
  rw [tryFromF]
  simp only [List.takeWhile_cons, hds, Bool.false_eq_true, if_false,
    List.isEmpty_nil, if_true, reduceIte]
  rw [trySep]
  have hrep1 : List.replicate (n + 1) 'a' = 'a' :: List.replicate n 'a' :=
    List.replicate_succ 'a' n
  rw [hrep1]
  simp only [List.takeWhile_cons, hsd, hss, hsa, Bool.false_eq_true, if_false,
    if_true, reduceIte, List.takeWhile_nil, List.length_cons, List.length_nil]
  rw [trySepLens]
  rw [← hrep1]
  simp only [List.drop_succ_cons, List.drop_zero]
  rw [titleSplit_replicate_a n]

/-- C9 (amended): the Heading Detector enforces NO line length bound: for
every length, the line `1. ` followed by that many letters matches the
heading grammar and returns path `1` with the whole letter block as
title, and such lines are longer than any proposed bound. -/
theorem claim_C9_amended (n : Nat) :
    detectHeading (String.mk ('1' :: '.' :: ' ' :: List.replicate (n + 1) 'a')) =
      some ("1", String.mk (List.replicate (n + 1) 'a')) ∧
    n < (String.mk ('1' :: '.' :: ' ' :: List.replicate (n + 1) 'a')).length := by
  have h1 : isWsC '1' = false := rfl
  have h2 : isWsC '.' = false := rfl
  have h3 : isWsC ' ' = true := rfl
  have ha : isWsC 'a' = false := rfl
  constructor
  · rw [detectHeading]
    have hdata : (String.mk ('1' :: '.' :: ' ' :: List.replicate (n + 1) 'a')).data
        = '1' :: '.' :: ' ' :: List.replicate (n + 1) 'a' := rfl
    rw [hdata]
    have e0 : trimEnd (List.replicate (n + 1) 'a') = List.replicate (n + 1) 'a' :=
      trimEnd_replicate_a (n + 1)
    have ne0 : trimEnd (List.replicate (n + 1) 'a') ≠ [] := by
      rw [e0, List.replicate_succ]
      simp
    have e1 : trimEnd (' ' :: List.replicate (n + 1) 'a') =
        ' ' :: List.replicate (n + 1) 'a' := by
      rw [trimEnd_cons_ne_nil _ _ ne0, e0]
    have ne1 : trimEnd (' ' :: List.replicate (n + 1) 'a') ≠ [] := by
      rw [e1]
      simp
    have e2 : trimEnd ('.' :: ' ' :: List.replicate (n + 1) 'a') =
        '.' :: ' ' :: List.replicate (n + 1) 'a' := by
      rw [trimEnd_cons_ne_nil _ _ ne1, e1]
    have ne2 : trimEnd ('.' :: ' ' :: List.replicate (n + 1) 'a') ≠ [] := by
      rw [e2]
      simp
    have htrim : trimL ('1' :: '.' :: ' ' :: List.replicate (n + 1) 'a') =
        '1' :: '.' :: ' ' :: List.replicate (n + 1) 'a' := by
      rw [trimL, List.dropWhile_cons]
      simp only [h1, Bool.false_eq_true, if_false]
      rw [trimEnd_cons_ne_nil _ _ ne2, e2]
    rw [htrim]
    have hcol : wsRunsTo ' ' false ('1' :: '.' :: ' ' :: List.replicate (n + 1) 'a')
        = '1' :: '.' :: ' ' :: List.replicate (n + 1) 'a' := by
      simp only [wsRunsTo, h1, h2, h3, ha, Bool.false_eq_true, if_false,
        if_true, reduceIte, wsRunsTo_replicate_a, List.replicate_succ]
    rw [hcol, matchHeading_letters n]
    have htr : trimL (List.replicate (n + 1) 'a') = List.replicate (n + 1) 'a' := by
      rw [trimL, List.replicate_succ, List.dropWhile_cons]
      simp only [ha, Bool.false_eq_true, if_false]
      rw [← List.replicate_succ, trimEnd_replicate_a]
    show some (String.mk ['1'], String.mk (trimL (List.replicate (n + 1) 'a'))) =
      some ("1", String.mk (List.replicate (n + 1) 'a'))
    rw [htr]
  · have hlen : (String.mk ('1' :: '.' :: ' ' :: List.replicate (n + 1) 'a')).length
        = n + 4 := by
      simp [String.length]
    omega

/-- C9 counterexample: a line of total length 300 that begins with a
dotted numeric path, a separator and a title; the claim says every line
longer than the fixed bound yields no heading, yet this one is detected
(the source regex and `_detect_heading` contain no length check at
all). -/
theorem claim_C9_counterexample :
    (String.mk ('1' :: '.' :: ' ' :: List.replicate 297 'a')).length = 300 ∧
    (detectHeading (String.mk ('1' :: '.' :: ' ' :: List.replicate 297 'a'))).isSome
      = true := by
  constructor
  · decide
  · decide

/-! ## Claim C10: whitespace-only elements are noise and contribute
nothing -/

/-- Does pass 1 record this element as a TOC marker?  The recording
decision of `pass1Go` for one element depends on that element alone. -/
def tocPred (e : DocElem) : Bool := (headingOf e).isSome

/-- Lifted `tocPred` over an optional element. -/
def optTocPred : Option DocElem → Prop
  | some e => tocPred e = true
  | none => False

/-- Shift the per-index TOC description across one cons cell. -/
theorem optTocPred_cons_shift (e : DocElem) (rest : List DocElem) (n i : Nat) :
    (n ≤ i ∧ i - n < rest.length + 1 ∧ optTocPred ((e :: rest).get? (i - n))) ↔
    ((i = n ∧ optTocPred (some e)) ∨
      (n + 1 ≤ i ∧ i - (n + 1) < rest.length ∧
        optTocPred (rest.get? (i - (n + 1))))) := by
  constructor
  · rintro ⟨hni, hlt, hp⟩
    by_cases hi : i = n
    · left
      subst hi
      simpa using hp
    · right
      have h1 : n + 1 ≤ i := by omega
      have h2 : i - n = (i - (n + 1)) + 1 := by omega
      rw [h2, List.get?_cons_succ] at hp
      exact ⟨h1, by omega, hp⟩
  · rintro (⟨hi, hp⟩ | ⟨h1, h2, hp⟩)
    · subst hi
      exact ⟨Nat.le_refl _, by omega, by simpa using hp⟩
    · refine ⟨by omega, by omega, ?_⟩
      have h3 : i - n = (i - (n + 1)) + 1 := by omega
      rw [h3, List.get?_cons_succ]
      exact hp

/-- Membership in the TOC marker list built by pass 1: an index is
recorded iff it extends the accumulator or points at an element
satisfying `tocPred`, offset by the running index. -/
theorem pass1Go_toc_mem :
    ∀ (els : List DocElem) (n : Nat) (ts : List (String × String))
      (toc : List Nat) (i : Nat),
    i ∈ (pass1Go n els ts toc).2 ↔
      i ∈ toc ∨ (n ≤ i ∧ i - n < els.length ∧ optTocPred (els.get? (i - n)))
  | [], n, ts, toc, i => by simp [pass1Go]
  | e :: rest, n, ts, toc, i => by
    have hshift := optTocPred_cons_shift e rest n i
    by_cases hskip : (kindIsHFP e.kind || isFooterOrDisclaimer (trimS e.txt)) = true
    · have hhOf : headingOf e = none := by rw [headingOf, if_pos hskip]
      have hp : tocPred e = false := by rw [tocPred, hhOf]; rfl
      rw [List.length_cons]
      rw [show pass1Go n (e :: rest) ts toc = pass1Go (n + 1) rest ts toc by
        rw [pass1Go, if_pos hskip]]
      rw [pass1Go_toc_mem rest (n + 1) ts toc i, hshift]
      simp [optTocPred, hp]
    · cases hd : detectHeading (trimS e.txt) with
      | none =>
        have hhOf : headingOf e = none := by
          rw [headingOf, if_neg hskip, hd]
        have hp : tocPred e = false := by rw [tocPred, hhOf]; rfl
        rw [List.length_cons]
        rw [show pass1Go n (e :: rest) ts toc = pass1Go (n + 1) rest ts toc by
          rw [pass1Go, if_neg hskip, hd]]
        rw [pass1Go_toc_mem rest (n + 1) ts toc i, hshift]
        simp [optTocPred, hp]
      | some pt =>
        obtain ⟨p, t⟩ := pt
        by_cases hv : (p ≠ "" && t ≠ "") = true
        · have hhOf : headingOf e = some (p, t) := by
            rw [headingOf, if_neg hskip, hd]
            dsimp only
            rw [if_pos hv]
          have hp : tocPred e = true := by rw [tocPred, hhOf]; rfl
          rw [List.length_cons]
          rw [show pass1Go n (e :: rest) ts toc =
            pass1Go (n + 1) rest
              (if (assocLookup ts (getSectionParent p)).isNone
                  || p = getSectionParent p
               then assocSet ts (getSectionParent p) t else ts)
              (toc ++ [n]) by
            rw [pass1Go, if_neg hskip, hd]
            dsimp only
            rw [if_pos hv]]
          rw [pass1Go_toc_mem rest (n + 1) _ (toc ++ [n]) i, hshift]
          have hop : optTocPred (some e) := by
            show tocPred e = true
            exact hp
          simp only [List.mem_append, List.mem_singleton]
          constructor
          · rintro ((h | h) | h)
            · exact Or.inl h
            · exact Or.inr (Or.inl ⟨h, hop⟩)
            · exact Or.inr (Or.inr h)
          · rintro (h | (⟨h, -⟩ | h))
            · exact Or.inl (Or.inl h)
            · exact Or.inl (Or.inr h)
            · exact Or.inr h
        · have hhOf : headingOf e = none := by
            rw [headingOf, if_neg hskip, hd]
            dsimp only
            rw [if_neg hv]
          have hp : tocPred e = false := by rw [tocPred, hhOf]; rfl
          rw [List.length_cons]
          rw [show pass1Go n (e :: rest) ts toc = pass1Go (n + 1) rest ts toc by
            rw [pass1Go, if_neg hskip, hd]
            dsimp only
            rw [if_neg hv]]
          rw [pass1Go_toc_mem rest (n + 1) ts toc i, hshift]
          simp [optTocPred, hp]

/-- Whether pass 2 skips an index as a TOC marker is a function of the
element standing at that index. -/
theorem pass1_toc_pred (els : List DocElem) (i : Nat) (e : DocElem)
    (hi : els.get? i = some e) :
    (pass1 els).2.contains i = tocPred e := by
  have hlen : i < els.length := by
    by_contra hcon
    rw [List.get?_eq_none.mpr (by omega)] at hi
    exact absurd hi (by simp)
  have hmem := pass1Go_toc_mem els 0 [] [] i
  have hget : els.get? (i - 0) = some e := by rw [Nat.sub_zero]; exact hi
  by_cases hp : tocPred e = true
  · have hin : i ∈ (pass1 els).2 := by
      rw [show (pass1 els).2 = (pass1Go 0 els [] []).2 from rfl, hmem]
      refine Or.inr ⟨Nat.zero_le i, by simpa using hlen, ?_⟩
      rw [hget]
      exact hp
    rw [hp]
    simpa using hin
  · have hout : i ∉ (pass1 els).2 := by
      rw [show (pass1 els).2 = (pass1Go 0 els [] []).2 from rfl, hmem]
      rintro (h | ⟨-, -, hopt⟩)
      · simp at h
      · rw [hget] at hopt
        exact hp hopt
    rw [Bool.eq_false_iff.mpr hp]
    simpa using hout

/-- Index-free version of pass 2, the TOC-marker skip decided per
element. -/
def pass2CleanGo : List DocElem → St2 → St2
  | [], st => st
  | e :: rest, st => pass2CleanGo rest (pass2Core (tocPred e) e st)

/-- Pass 2 equals its index-free version whenever the TOC list agrees
with the per-element predicate along the walked range. -/
theorem pass2_bridge :
    ∀ (els : List DocElem) (toc : List Nat) (n : Nat) (st : St2),
      (∀ (i : Nat) (e : DocElem), els.get? i = some e →
        toc.contains (n + i) = tocPred e) →
      pass2Go toc n els st = pass2CleanGo els st
  | [], _, _, _, _ => rfl
  | e :: rest, toc, n, st, h => by
    have h0 : toc.contains n = tocPred e := by
      have := h 0 e rfl
      simpa using this
    rw [pass2Go, pass2CleanGo, show pass2Step toc n e st = pass2Core (tocPred e) e st by
      rw [pass2Step, h0]]
    exact pass2_bridge rest toc (n + 1) (pass2Core (tocPred e) e st)
      (fun i e' hi => by
        have hstep := h (i + 1) e' (by simpa using hi)
        have harr : n + (i + 1) = n + 1 + i := by omega
        rw [harr] at hstep
        exact hstep)

/-- The full document pipeline through the index-free second pass. -/
theorem processDocument_clean (els : List DocElem) :
    processDocument els =
      phase3 (sortSecs
        (pass2CleanGo els (initSecs (pass1 els).1, none, none)).1) := by
  show phase3 (sortSecs
      (pass2Go (pass1 els).2 0 els (initSecs (pass1 els).1, none, none)).1) = _
  rw [pass2_bridge els (pass1 els).2 0 _
    (fun i e hi => by simpa using pass1_toc_pred els i e hi)]

/-- Inserting a noise element anywhere leaves the index-free second pass
unchanged. -/
theorem pass2CleanGo_insert_noise (e : DocElem)
    (he : isFooterOrDisclaimer (trimS e.txt) = true) :
    ∀ (xs ys : List DocElem) (st : St2),
      pass2CleanGo (xs ++ e :: ys) st = pass2CleanGo (xs ++ ys) st
  | [], ys, st => by
    rw [List.nil_append, List.nil_append, pass2CleanGo]
    have hskip : pass2Core (tocPred e) e st = st := by
      rw [pass2Core]
      simp [he]
    rw [hskip]
  | x :: xs, ys, st => by
    rw [List.cons_append, List.cons_append, pass2CleanGo, pass2CleanGo]
    exact pass2CleanGo_insert_noise e he xs ys _

/-- A fully-whitespace character list strips to nothing. -/
theorem trimL_nil_of_ws : ∀ (l : List Char), l.all isWsC = true → trimL l = []
  | [], _ => rfl
  | c :: rest, h => by
    simp only [List.all_cons, Bool.and_eq_true] at h
    rw [trimL, List.dropWhile_cons, h.1]
    simp only [if_true, reduceIte]
    have htail := trimL_nil_of_ws rest h.2
    rw [trimL] at htail
    exact htail

/-- C10: an element whose text is empty or whitespace-only is classified
as noise by the Noise Filter, and inserting it anywhere in the element
sequence changes nothing: it registers no heading, switches or receives
no section assignment, and contributes to no emitted chunk — the whole
pipeline output is identical with and without it. -/
theorem claim_C10_whitespace_noise (e : DocElem)
    (hw : e.txt.data.all isWsC = true) (xs ys : List DocElem) :
    isFooterOrDisclaimer (trimS e.txt) = true ∧
    processDocument (xs ++ e :: ys) = processDocument (xs ++ ys) := by
  have htrim : trimS e.txt = "" := by
    rw [trimS, trimL_nil_of_ws _ hw]
  have hnoise : isFooterOrDisclaimer (trimS e.txt) = true := by
    rw [htrim]
    decide
  refine ⟨hnoise, ?_⟩
  have hhe : headingOf e = none := by simp [headingOf, hnoise]
  have htitles : (pass1 (xs ++ e :: ys)).1 = (pass1 (xs ++ ys)).1 := by
    rw [show (pass1 (xs ++ e :: ys)).1 =
      (pass1Go 0 (xs ++ e :: ys) [] []).1 from rfl]
    rw [show (pass1 (xs ++ ys)).1 = (pass1Go 0 (xs ++ ys) [] []).1 from rfl]
    rw [pass1Go_titles (xs ++ e :: ys) 0 [] [], pass1Go_titles (xs ++ ys) 0 [] []]
    have hheads : headings (xs ++ e :: ys) = headings (xs ++ ys) := by
      simp [headings, List.filterMap_append, List.filterMap_cons, hhe]
    rw [hheads]
  rw [processDocument_clean, processDocument_clean, htitles,
    pass2CleanGo_insert_noise e hnoise xs ys]

/-- C10 witness: a three-space text element inserted after an ordinary
text element; the filter flags it and the output is unchanged. -/
theorem claim_C10_witness :
    isFooterOrDisclaimer (trimS sWs.txt) = true ∧
    processDocument [sText2, sWs] = processDocument [sText2] :=
  claim_C10_whitespace_noise sWs (by decide) [sText2] []
